import Mathlib

/-!
Verification development for the PR Enhancer browser extension
(`content/core.js`, the sorting module, `content/comments.js`,
`content/ui.js`, `content/content.js`, `popup/popup.js`).

The JavaScript sources are shallowly embedded: DOM elements become explicit
Lean structures, DOM node identity becomes a numeric `nid`, JS strings become
Lean `String`s (or `List Char` where character-level operations matter),
JS `Date` values become integers in milliseconds (an invalid date is a
distinguished constructor), and operations that may throw return an explicit
result type.  Every definition mirrors one function or code path of the
source, named after it where Lean allows.
-/

namespace PRSorter

/-! ## JS string helpers

`jsIncludes s sub` models `s.includes(sub)` (substring containment) and
`jsEndsWith s suf` models `s.endsWith(suf)`; both are implemented over the
character list so that concrete instances reduce by `decide`. -/

def listStartsWith : List Char → List Char → Bool
  | _, [] => true
  | [], _ :: _ => false
  | a :: as, b :: bs => a == b && listStartsWith as bs

def containsSeq : List Char → List Char → Bool
  | l, pat =>
    listStartsWith l pat ||
      match l with
      | [] => false
      | _ :: t => containsSeq t pat

def jsIncludes (s sub : String) : Bool :=
  containsSeq s.toList sub.toList

def jsEndsWith (s suf : String) : Bool :=
  listStartsWith s.toList.reverse suf.toList.reverse

/-! ## Sort options (core.js `SORT_OPTIONS`)

`sortOptionValues` is `Object.values(SORT_OPTIONS)`, in the object's
insertion order. -/

def DATE_OLDEST : String := "date-oldest"

def DATE_NEWEST : String := "date-newest"

def RESOLVED_LAST : String := "resolved-last"

def UNRESOLVED_LAST : String := "unresolved-last"

def sortOptionValues : List String :=
  [DATE_OLDEST, DATE_NEWEST, RESOLVED_LAST, UNRESOLVED_LAST]

/-! ## Comment elements (comments.js)

A comment child element is modelled by its node identity and the flat list
of its descendant elements, which is all the selectors in the source examine
(`details[data-resolved="false"]` and `relative-time, time` contain no
combinators, so a querySelector over the subtree is a first-match search of
the descendant list).  The `datetime` field of a descendant holds the
already-parsed millisecond value of its `datetime` attribute (`none` when
the attribute is absent); the sorting code path is modelled for elements
whose datetime attributes parse to valid dates. -/

structure SubElem where
  tag : String
  dataResolved : Option String
  datetime : Option Int
deriving DecidableEq, Repr

structure CommentElem where
  nid : Nat
  descendants : List SubElem
deriving DecidableEq, Repr

/-- comments.js `isCommentResolved`: resolved iff
`element.querySelector('details[data-resolved="false"]')` finds nothing. -/
def isCommentResolved (element : CommentElem) : Bool :=
  !(element.descendants.any fun s => s.tag == "details" && s.dataResolved == some "false")

/-- `element.querySelector("relative-time, time")`: first matching descendant. -/
def queryTimeElement (element : CommentElem) : Option SubElem :=
  element.descendants.find? fun s => s.tag == "relative-time" || s.tag == "time"

/-- The date computed per child in `applySorting`:
`timeA ? new Date(timeA.getAttribute("datetime") || 0) : new Date(0)`
(a missing attribute falls back to epoch 0, as does a missing time element). -/
def childDate (element : CommentElem) : Int :=
  match queryTimeElement element with
  | some t => t.datetime.getD 0
  | none => 0

/-! ## The comparator and DOM reordering (sorting module of core.js) -/

/-- The comparator passed to `children.sort` in `applySorting`, by sort mode. -/
def compareComments (sortOption : String) (a b : CommentElem) : Int :=
  let dateA := childDate a
  let dateB := childDate b
  if sortOption == DATE_NEWEST then dateB - dateA
  else if sortOption == DATE_OLDEST then dateA - dateB
  else if sortOption == RESOLVED_LAST then
    let resolvedA := isCommentResolved a
    let resolvedB := isCommentResolved b
    if resolvedA != resolvedB then (if resolvedA then 1 else -1)
    else dateA - dateB
  else if sortOption == UNRESOLVED_LAST then
    let unresolvedA := !isCommentResolved a
    let unresolvedB := !isCommentResolved b
    if unresolvedA != unresolvedB then (if unresolvedA then -1 else 1)
    else dateA - dateB
  else dateA - dateB

/-- "a may be placed before b" under the comparator (comparator value ≤ 0). -/
def sortLe (sortOption : String) (a b : CommentElem) : Bool :=
  compareComments sortOption a b ≤ 0

def orderedInsert (le : CommentElem → CommentElem → Bool) (a : CommentElem) :
    List CommentElem → List CommentElem
  | [] => [a]
  | b :: l => if le a b then a :: b :: l else b :: orderedInsert le a l

/-- `Array.prototype.sort` with a comparator: a stable sort placing `a`
before `b` when the comparator returns a nonpositive value.  Modelled by a
stable insertion sort, which agrees with any stable sort (hence with the
engine's) for a consistent comparator. -/
def jsStableSort (le : CommentElem → CommentElem → Bool) :
    List CommentElem → List CommentElem
  | [] => []
  | a :: l => orderedInsert le a (jsStableSort le l)

/-- `container.appendChild(el)` for an `el` already in the container:
the element is detached from its current position and appended at the end. -/
def appendChildMove (container : List CommentElem) (el : CommentElem) :
    List CommentElem :=
  container.erase el ++ [el]

/-- core.js sorting module `reorderElements`: appends each sorted element to
the container in order (no-op on a missing/empty sorted list, per the guard). -/
def reorderElements (sortedElements : List CommentElem)
    (container : List CommentElem) : List CommentElem :=
  if sortedElements.isEmpty then container
  else sortedElements.foldl appendChildMove container

/-! ## Engine state and `applySorting`

`persistRequested` records the argument of the `savePreference(sortOption)`
call (core.js): persistence itself is an external, best-effort write to
`chrome.storage.sync` with a localStorage fallback, so the model records the
value whose persistence was initiated.  The visual indicator update and the
notification are pure UI side effects and are not part of the state. -/

structure EngineState where
  currentSort : String
  persistRequested : Option String
deriving DecidableEq, Repr

structure SortOutcome where
  state : EngineState
  container : Option (List CommentElem)
deriving DecidableEq, Repr

/-- sorting module `applySorting(sortOption)`: sets `state.currentSort`,
calls `savePreference`, then looks up the `.js-discussion` container
(`none` = not found), returns early when it is missing or has no children,
and otherwise sorts and reorders the children. -/
def applySorting (_st : EngineState) (container : Option (List CommentElem))
    (sortOption : String) : SortOutcome :=
  let st1 : EngineState := { currentSort := sortOption, persistRequested := some sortOption }
  match container with
  | none => ⟨st1, none⟩
  | some children =>
    if children.isEmpty then ⟨st1, some children⟩
    else ⟨st1, some (reorderElements (jsStableSort (sortLe sortOption) children) children)⟩

/-- sorting module `toggleSort`: the next sort option, computed as
`options[(options.indexOf(current) + 1) % options.length]` over
`Object.values(SORT_OPTIONS)` (a missing current sort has index -1, so the
next index is 0). -/
def toggleSortNext (current : String) : String :=
  let options := sortOptionValues
  let nextIndex :=
    match options.findIdx? (fun o => o == current) with
    | some i => (i + 1) % options.length
    | none => 0
  options.getD nextIndex ""

/-- sorting module `toggleSort()`: applies sorting with the next option. -/
def toggleSort (st : EngineState) (container : Option (List CommentElem)) :
    SortOutcome :=
  applySorting st container (toggleSortNext st.currentSort)

/-- content.js `getStatus` message response:
`{currentSort, commentCount: timeline.length + review.length, isOnPRPage: true}`. -/
structure StatusResponse where
  currentSort : String
  commentCount : Nat
  isOnPRPage : Bool
deriving DecidableEq, Repr

def getStatusResponse (st : EngineState) (timelineCount reviewCount : Nat) :
    StatusResponse :=
  ⟨st.currentSort, timelineCount + reviewCount, true⟩

/-! ## Mutation observer filter (content.js `setupMutationObserver`) -/

/-- One entry of a MutationObserver batch; `targetInsideInjected` is whether
`mutation.target.closest(".pr-comment-sorter-controls, .pr-sorter-notification")`
finds an ancestor, i.e. the changed node lies inside the injected subtrees. -/
structure MutationRecord where
  targetInsideInjected : Bool
deriving DecidableEq, Repr

/-- Whether the observer callback reaches the debounce scheduling: the loop
`for (const mutation of mutations) { if (target.closest(...)) return; }`
returns early as soon as ANY mutation targets an injected subtree, so a
reconciliation is (re)scheduled iff no mutation in the batch does. -/
def mutationBatchSchedules (batch : List MutationRecord) : Bool :=
  batch.all fun m => !m.targetInsideInjected

/-- Modelled from the spec's words, for comparison with the code: a batch
schedules a reconciliation iff its changed nodes are NOT exclusively inside
the injected subtrees. -/
def specBatchSchedules (batch : List MutationRecord) : Bool :=
  !(batch.all fun m => m.targetInsideInjected)

/-! ## Tab detection (ui.js `isConversationTab`) -/

/-- The selected item of the PR tab navigation widget: its lowercased text
content and its `href` attribute (`getAttribute('href') || ""`). -/
structure TabInfo where
  textLower : String
  href : String
deriving DecidableEq, Repr

structure TabNav where
  selectedTab : Option TabInfo
deriving DecidableEq, Repr

/-- The `#discussion_bucket` element: the rendered-visibility test
(`offsetParent !== null && offsetHeight > 0 && offsetWidth > 0`) collapsed
into `visible`, plus the three class checks the source performs. -/
structure BucketInfo where
  visible : Bool
  hasIsVisibleClass : Bool
  hasShowClass : Bool
  hasDNoneClass : Bool
deriving DecidableEq, Repr

/-- All page signals `isConversationTab` reads.  Each `...Visible` field
states that a container matching the corresponding selector group exists
and passes the rendered-visibility test. -/
structure PageState where
  pathname : String
  hash : String
  filesContainerVisible : Bool
  commitsContainerVisible : Bool
  commitsContainerInTimeline : Bool
  checksContainerVisible : Bool
  discussionBucket : Option BucketInfo
  prTabNav : Option TabNav
deriving DecidableEq, Repr

/-- ui.js `isConversationTab()`: the five detection strategies in priority
order, with the conservative `false` fallback. -/
def isConversationTab (p : PageState) : Bool :=
  if jsIncludes p.pathname "/files" || jsIncludes p.pathname "/commits" ||
      jsIncludes p.pathname "/changes" || jsIncludes p.pathname "/checks" then
    false
  else if p.hash != "" &&
      (jsIncludes p.hash "commits" || jsIncludes p.hash "checks" ||
        jsIncludes p.hash "files" || jsIncludes p.hash "diff-") then
    false
  else if p.filesContainerVisible then false
  else if p.commitsContainerVisible && !p.commitsContainerInTimeline then false
  else if p.checksContainerVisible then false
  else
    match p.discussionBucket with
    | none => false
    | some db =>
      let isVisible := db.visible
      let hasVisibleClass := db.hasIsVisibleClass || db.hasShowClass || !db.hasDNoneClass
      if isVisible && hasVisibleClass then true
      else
        match p.prTabNav with
        | none => false
        | some nav =>
          match nav.selectedTab with
          | none => false
          | some tab =>
            if jsIncludes tab.textLower "file" || jsIncludes tab.textLower "commit" ||
                jsIncludes tab.textLower "check" || jsIncludes tab.href "/files" ||
                jsIncludes tab.href "/commits" || jsIncludes tab.href "/checks" then
              false
            else if jsIncludes tab.textLower "conversation" ||
                jsEndsWith tab.href "/pull/" || !(jsIncludes tab.href "#") then
              true
            else false

/-! ## Placement manager (ui.js `moveMergeStatusToTop` / `restoreMergeStatusPosition`)

The relevant page fragment is a two-level tree: a list of candidate parent
containers, each with a list of child element nodes.  Node identity is `nid`
(JS object identity), container identity is `cid`; `domId` is the mutable
`id` attribute (`""` = none).  On a node, `isMergeBox` states that the node
is the one found by the merge-box selector cascade, `isSortControls` that it
matches `.pr-comment-sorter-controls`, and the three `Option String`/`Bool`
fields model the `data-moved-to-top`, `data-original-parent-id` and
`data-original-next-sibling-id` dataset entries. -/

structure WNode where
  nid : Nat
  domId : String
  isMergeBox : Bool
  isSortControls : Bool
  movedToTop : Bool
  originalParentId : Option String
  originalNextSiblingId : Option String
deriving DecidableEq, Repr

structure WContainer where
  cid : Nat
  domId : String
  hasDiscussionTimelineClass : Bool
  isBody : Bool
  children : List WNode
deriving DecidableEq, Repr

structure WDoc where
  containers : List WContainer
deriving DecidableEq, Repr

/-- First node (in document order) satisfying a predicate, with its parent. -/
def findNode (p : WNode → Bool) (d : WDoc) : Option (WContainer × WNode) :=
  d.containers.findSome? fun c => (c.children.find? p).map fun n => (c, n)

/-- `document.getElementById` restricted to the container level (the ids the
source records for parents are container ids; the model keeps the two levels
distinct and the round-trip theorems assume ids are unique). -/
def getContainerById (i : String) (d : WDoc) : Option WContainer :=
  if i == "" then none else d.containers.find? fun c => c.domId == i

/-- `document.getElementById` restricted to the node level. -/
def getNodeById (i : String) (d : WDoc) : Option WNode :=
  if i == "" then none else (findNode (fun n => n.domId == i) d).map fun x => x.2

/-- `node.nextSibling` within a child list, by node identity. -/
def nextSiblingIn (l : List WNode) (t : Nat) : Option WNode :=
  match l with
  | [] => none
  | x :: xs => if x.nid == t then xs.head? else nextSiblingIn xs t

def mapNodeInList (t : Nat) (f : WNode → WNode) (l : List WNode) : List WNode :=
  l.map fun n => if n.nid == t then f n else n

/-- In-place mutation of the node with identity `t` (DOM nodes are shared,
so the update applies wherever the node sits). -/
def mapNode (t : Nat) (f : WNode → WNode) (d : WDoc) : WDoc :=
  ⟨d.containers.map fun c => { c with children := mapNodeInList t f c.children }⟩

/-- Detaching the node with identity `t` from the tree. -/
def removeNode (t : Nat) (d : WDoc) : WDoc :=
  ⟨d.containers.map fun c => { c with children := c.children.filter fun n => n.nid != t }⟩

def insertAfterInList (anchor : Nat) (nn : WNode) : List WNode → List WNode
  | [] => []
  | x :: xs => if x.nid == anchor then x :: nn :: xs else x :: insertAfterInList anchor nn xs

/-- `parent.insertBefore(nn, anchor.nextSibling)`: insert right after the
anchor node, wherever it sits. -/
def insertAfterNode (anchor : Nat) (nn : WNode) (d : WDoc) : WDoc :=
  ⟨d.containers.map fun c => { c with children := insertAfterInList anchor nn c.children }⟩

def insertBeforeInList (ref : Nat) (nn : WNode) : List WNode → List WNode
  | [] => []
  | x :: xs => if x.nid == ref then nn :: x :: xs else x :: insertBeforeInList ref nn xs

/-- `container.appendChild(nn)` / `insertBefore(nn, null)` on a container. -/
def appendChildInContainer (target : Nat) (nn : WNode) (d : WDoc) : WDoc :=
  ⟨d.containers.map fun c =>
    if c.cid == target then { c with children := c.children ++ [nn] } else c⟩

/-- `container.insertBefore(nn, ref)` with `ref` a child of the container. -/
def insertBeforeInContainer (target : Nat) (ref : Nat) (nn : WNode) (d : WDoc) : WDoc :=
  ⟨d.containers.map fun c =>
    if c.cid == target then { c with children := insertBeforeInList ref nn c.children } else c⟩

def containerChildren (target : Nat) (d : WDoc) : List WNode :=
  match d.containers.find? (fun c => c.cid == target) with
  | some c => c.children
  | none => []

/-- ui.js `moveMergeStatusToTop()`.  `isConvTab` is the value of
`isConversationTab()` at call time; `freshId` is the generated marker id
`pr-sorter-restore-marker-${Date.now()}`.  Faithful points: the original
parent is recorded as `originalParent?.id || ''` — no id is ever assigned to
the parent — while the next sibling, when present, is given the marker id if
it has none; the merge box is then moved to directly after the sort
controls. -/
def moveMergeStatusToTop (isConvTab : Bool) (freshId : String) (d : WDoc) : WDoc :=
  if !isConvTab then d
  else
    match findNode (fun n => n.isMergeBox) d with
    | none => d
    | some (parent, mergeBox) =>
      if mergeBox.movedToTop then d
      else
        match findNode (fun n => n.isSortControls) d with
        | none => d
        | some (_, sortControls) =>
          let sib? := nextSiblingIn parent.children mergeBox.nid
          let recordedSibId? : Option String :=
            sib?.map fun s => if s.domId == "" then freshId else s.domId
          let mergeBox' : WNode :=
            { mergeBox with
                movedToTop := true
                originalParentId := some parent.domId
                originalNextSiblingId := recordedSibId? }
          let d1 :=
            match sib? with
            | some s =>
              if s.domId == "" then mapNode s.nid (fun n => { n with domId := freshId }) d
              else d
            | none => d
          insertAfterNode sortControls.nid mergeBox' (removeNode mergeBox.nid d1)

/-- ui.js `restoreMergeStatusPosition()`.  Looks up the recorded parent id
(skipped when the recorded value is the empty string, which is falsy in JS),
falls back to `#discussion_bucket`, `.discussion-timeline`, then
`document.body`, looks up the recorded next sibling, re-inserts the merge
box and clears the dataset entries.  `none` models the `NotFoundError` that
`insertBefore` throws when the looked-up sibling is not a child of the
chosen parent (in that case the dataset is not cleared). -/
def restoreMergeStatusPosition (d : WDoc) : Option WDoc :=
  match findNode (fun n => n.movedToTop) d with
  | none => some d
  | some (_, mergeBox) =>
    let byId : Option WContainer :=
      match mergeBox.originalParentId with
      | some pid => getContainerById pid d
      | none => none
    let originalParent : Option WContainer :=
      match byId with
      | some p => some p
      | none =>
        match getContainerById "discussion_bucket" d with
        | some p => some p
        | none =>
          match d.containers.find? (fun c => c.hasDiscussionTimelineClass) with
          | some p => some p
          | none => d.containers.find? fun c => c.isBody
    let originalNextSibling : Option WNode :=
      match mergeBox.originalNextSiblingId with
      | some sid => getNodeById sid d
      | none => none
    let cleaned : WNode :=
      { mergeBox with
          movedToTop := false
          originalParentId := none
          originalNextSiblingId := none }
    match originalParent with
    | none => some (mapNode mergeBox.nid (fun _ => cleaned) d)
    | some p =>
      match originalNextSibling with
      | none => some (appendChildInContainer p.cid cleaned (removeNode mergeBox.nid d))
      | some s =>
        if (containerChildren p.cid (removeNode mergeBox.nid d)).any (fun n => n.nid == s.nid) then
          some (insertBeforeInContainer p.cid s.nid cleaned (removeNode mergeBox.nid d))
        else none

/-- Identity of the container currently holding the node `t`. -/
def parentCidOf (t : Nat) (d : WDoc) : Option Nat :=
  (d.containers.find? fun c => c.children.any fun n => n.nid == t).map fun c => c.cid

/-- Identity of the node directly following node `t` in its container. -/
def nextSiblingNidOf (t : Nat) (d : WDoc) : Option Nat :=
  match d.containers.find? (fun c => c.children.any fun n => n.nid == t) with
  | some c => (nextSiblingIn c.children t).map fun n => n.nid
  | none => none

/-- The page fragment used by the placement theorems: a body, the merge
box's parent `P` (id `pid`, the widget at an arbitrary position
`pre ++ mergeBox :: post`), and the host of the injected sort controls. -/
def mkDoc (pid : String) (pre : List WNode) (mb : WNode) (post : List WNode)
    (sc : WNode) : WDoc :=
  ⟨[⟨0, "", false, true, []⟩,
    ⟨1, pid, false, false, pre ++ mb :: post⟩,
    ⟨2, "", false, false, [sc]⟩]⟩

/-- The effect of the move on the merge box's original sibling list: the
recorded next sibling receives the marker id when it has none; used to state
the round-trip theorems. -/
def renameHead (freshId : String) : List WNode → List WNode
  | [] => []
  | s :: rest => (if s.domId == "" then { s with domId := freshId } else s) :: rest

/-- The merge box as `moveMergeStatusToTop` leaves it: moved flag set,
original parent id and (optional) original next-sibling id recorded. -/
def movedMergeBox (pid freshId : String) (mb : WNode) (post : List WNode) : WNode :=
  { mb with
      movedToTop := true
      originalParentId := some pid
      originalNextSiblingId :=
        post.head?.map fun s => if s.domId == "" then freshId else s.domId }

/-- The merge box as `restoreMergeStatusPosition` leaves it: moved flag and
recorded ids cleared. -/
def cleanedMergeBox (mb : WNode) : WNode :=
  { mb with
      movedToTop := false
      originalParentId := none
      originalNextSiblingId := none }

/-! ## Comment data extraction (comments.js `extractCommentData`)

The two operations the source wraps in `try` are modelled as explicit
results that are either a value or a thrown exception; everything else in
the function cannot throw.  `parse` stands for the JS `Date` constructor on
a nonempty string: `some` milliseconds when the string parses, `none` for an
Invalid Date (which is a value, not an exception).  `now` is `Date.now()`. -/

inductive JsResult (α : Type) where
  | ok (value : α)
  | thrown (message : String)
deriving DecidableEq, Repr

inductive JSDate where
  | valid (ms : Int)
  | invalid
deriving DecidableEq, Repr

structure TimeElemR where
  datetime : Option String
deriving DecidableEq, Repr

structure RawElem where
  queryTime : JsResult (Option TimeElemR)
  resolvedCheck : JsResult Bool
deriving DecidableEq, Repr

structure CommentRecord where
  timestamp : JSDate
  resolved : Bool
  hasTimeElement : Bool
deriving DecidableEq, Repr

/-- comments.js `extractCommentData(element, index)`: `null` only for a
null/undefined element; a thrown resolution check degrades to
`resolved = false` in the inner catch; any other internal fault reaches the
outer catch, is logged, and degrades to the synthetic-timestamp default
record.  An empty `datetime` attribute is falsy, so it falls back to
`new Date()` just like a missing one. -/
def extractCommentData (parse : String → Option Int) (now : Int) (index : Int) :
    Option RawElem → Option CommentRecord
  | none => none
  | some el =>
    match el.queryTime with
    | .thrown _ => some ⟨.valid (now + index), false, false⟩
    | .ok timeElement =>
      let timestamp : JSDate :=
        match timeElement with
        | some t =>
          match t.datetime with
          | some dt =>
            if dt != "" then
              match parse dt with
              | some ms => .valid ms
              | none => .invalid
            else .valid now
          | none => .valid now
        | none => .valid (now + index)
      let resolved : Bool :=
        match el.resolvedCheck with
        | .ok b => b
        | .thrown _ => false
      some ⟨timestamp, resolved, timeElement.isSome⟩

/-! ## Unresolved tracker (comments.js `getUnresolvedConversations`)

Text contents are modelled as character lists (JS strings are code-unit
sequences).  `normalizeWs` is `text.trim().replace(/\s+/g, " ")`: the words
of the text joined by single spaces. -/

def wsSplit : List Char → List (List Char)
  | [] => [[]]
  | c :: cs =>
    if c.isWhitespace then [] :: wsSplit cs
    else
      match wsSplit cs with
      | [] => [[c]]
      | w :: ws => (c :: w) :: ws

def normalizeWs (l : List Char) : List Char :=
  List.intercalate [' '] ((wsSplit l).filter fun w => w ≠ [])

def trimChars (l : List Char) : List Char :=
  ((l.dropWhile Char.isWhitespace).reverse.dropWhile Char.isWhitespace).reverse

/-- `details[data-resolved="false"]` element as the tracker reads it:
its id attribute, the text of its `.author`/`.js-author` descendant and the
text of its `.comment-body` descendant (absent descendants are `none`). -/
structure DetailsElem where
  elemId : String
  authorText : Option (List Char)
  bodyText : Option (List Char)
deriving DecidableEq, Repr

structure UnresolvedEntry where
  entryId : String
  username : List Char
  snippet : List Char
deriving DecidableEq, Repr

/-- The snippet computation:
`bodyEl ? bodyEl.textContent.trim().replace(/\s+/g," ") : ""`, then
`if (snippet.length > 60) snippet = snippet.substring(0, 60) + "..."`. -/
def mkSnippet (bodyText : Option (List Char)) : List Char :=
  let snippet :=
    match bodyText with
    | some b => normalizeWs b
    | none => []
  if snippet.length > 60 then snippet.take 60 ++ ['.', '.', '.'] else snippet

def mapWithIndex (f : Nat → DetailsElem → UnresolvedEntry) :
    Nat → List DetailsElem → List UnresolvedEntry
  | _, [] => []
  | i, a :: as => f i a :: mapWithIndex f (i + 1) as

/-- comments.js `getUnresolvedConversations()`: maps each unresolved
details element (with its index) to an entry. -/
def getUnresolvedConversations (unresolvedDetails : List DetailsElem) :
    List UnresolvedEntry :=
  mapWithIndex
    (fun index details =>
      let username :=
        match details.authorText with
        | some a => trimChars a
        | none => "Unknown".toList
      let snippet := mkSnippet details.bodyText
      { entryId := if details.elemId != "" then details.elemId
          else "unresolved-" ++ toString index
        username := username
        snippet := snippet })
    0 unresolvedDetails

/-! ## Concrete instances used by witnesses and counterexamples -/

/-- A thread element with no `details[data-resolved="false"]` descendant
(classified resolved) whose time element carries timestamp 1000. -/
def elemResolved : CommentElem :=
  ⟨1, [⟨"relative-time", none, some 1000⟩]⟩

/-- A thread element containing a `details[data-resolved="false"]`
descendant (classified unresolved) with timestamp 2000. -/
def elemUnresolved : CommentElem :=
  ⟨2, [⟨"relative-time", none, some 2000⟩, ⟨"details", some "false", none⟩]⟩

def exMergeBox : WNode := ⟨10, "", true, false, false, none, none⟩

def exSortControls : WNode := ⟨20, "", false, true, false, none, none⟩

def exSibling : WNode := ⟨30, "", false, false, false, none, none⟩

/-- A page whose path is a Files-tab URL while every other signal points at
the conversation tab: visible discussion bucket, conversation tab selected. -/
def exFilesPage : PageState :=
  ⟨"/org/repo/pull/5/files", "", false, false, false, false,
    some ⟨true, true, true, false⟩,
    some ⟨some ⟨"conversation", "/org/repo/pull/5"⟩⟩⟩

/-! ## Helper lemmas -/

theorem applySorting_state (st : EngineState) (container : Option (List CommentElem))
    (sortOption : String) :
    (applySorting st container sortOption).state = ⟨sortOption, some sortOption⟩ := by
  cases container with
  | none => rfl
  | some children =>
    show (applySorting st (some children) sortOption).state = _
    by_cases h : children.isEmpty <;> simp [applySorting, h]

theorem orderedInsert_perm (le : CommentElem → CommentElem → Bool) (a : CommentElem) :
    ∀ l : List CommentElem, (orderedInsert le a l).Perm (a :: l)
  | [] => List.Perm.refl _
  | b :: l => by
    unfold orderedInsert
    split
    · exact List.Perm.refl _
    · exact ((orderedInsert_perm le a l).cons b).trans (List.Perm.swap a b l)

theorem jsStableSort_perm (le : CommentElem → CommentElem → Bool) :
    ∀ l : List CommentElem, (jsStableSort le l).Perm l
  | [] => List.Perm.refl _
  | a :: l =>
    (orderedInsert_perm le a (jsStableSort le l)).trans ((jsStableSort_perm le l).cons a)

theorem foldl_appendChildMove (s : List CommentElem) :
    ∀ front done : List CommentElem, s.Perm front → (front ++ done).Nodup →
      s.foldl appendChildMove (front ++ done) = done ++ s := by
  induction s with
  | nil =>
    intro front done h _
    rw [List.Perm.eq_nil h.symm]
    simp
  | cons a t ih =>
    intro front done h hnd
    have ha : a ∈ front := h.mem_iff.mp (List.mem_cons_self a t)
    have hstep : appendChildMove (front ++ done) a = front.erase a ++ (done ++ [a]) := by
      unfold appendChildMove
      rw [List.erase_append_left done ha, List.append_assoc]
    have hperm : t.Perm (front.erase a) := (h.trans (List.perm_cons_erase ha)).cons_inv
    have h1 : (front ++ done).Perm ((a :: front.erase a) ++ done) :=
      (List.perm_cons_erase ha).append_right done
    have h2 : ((front.erase a ++ done) ++ [a]).Perm (a :: (front.erase a ++ done)) :=
      List.perm_append_singleton _ _
    have hp : (front ++ done).Perm (front.erase a ++ (done ++ [a])) := by
      refine h1.trans ?_
      have h3 : (a :: (front.erase a ++ done)).Perm ((front.erase a ++ done) ++ [a]) := h2.symm
      simpa [List.append_assoc] using h3
    have hnd' : (front.erase a ++ (done ++ [a])).Nodup := hp.nodup hnd
    rw [List.foldl_cons, hstep, ih (front.erase a) (done ++ [a]) hperm hnd']
    simp

/-! ## Claim C5 -/

/-- Claim C5 (confirmed): for every non-empty (duplicate-free, as DOM nodes
are distinct) child list of the comment container and every sort mode,
`applySorting` leaves the container's child list a permutation of the
original children: elements are only re-attached to the parent in sorted
order, none is added, removed, duplicated or replaced by a clone. -/
theorem C5_applySorting_permutes (st : EngineState) (sortOption : String)
    (children : List CommentElem) (hne : children ≠ []) (hnd : children.Nodup) :
    ∃ sorted : List CommentElem,
      (applySorting st (some children) sortOption).container = some sorted ∧
        sorted.Perm children := by
  have hperm : (jsStableSort (sortLe sortOption) children).Perm children :=
    jsStableSort_perm _ children
  have hemp : children.isEmpty = false := by
    cases children with
    | nil => exact absurd rfl hne
    | cons a l => rfl
  have hsne : (jsStableSort (sortLe sortOption) children).isEmpty = false := by
    cases hs : jsStableSort (sortLe sortOption) children with
    | nil =>
      rw [hs] at hperm
      exact absurd hperm.symm.eq_nil hne
    | cons a l => rfl
  refine ⟨jsStableSort (sortLe sortOption) children, ?_, hperm⟩
  have hfold : (jsStableSort (sortLe sortOption) children).foldl appendChildMove children =
      jsStableSort (sortLe sortOption) children := by
    have hf := foldl_appendChildMove (jsStableSort (sortLe sortOption) children)
      children [] hperm (by simpa using hnd)
    simpa using hf
  simp [applySorting, hemp, reorderElements, hsne, hfold]

/-- Witness for C5: the hypotheses hold and the theorem applies at a
concrete two-element container. -/
theorem C5_witness :
    ([elemResolved, elemUnresolved] ≠ ([] : List CommentElem)) ∧
      [elemResolved, elemUnresolved].Nodup ∧
      ∃ sorted : List CommentElem,
        (applySorting ⟨DATE_NEWEST, none⟩ (some [elemResolved, elemUnresolved])
            DATE_NEWEST).container = some sorted ∧
          sorted.Perm [elemResolved, elemUnresolved] :=
  ⟨by decide, by decide,
    C5_applySorting_permutes ⟨DATE_NEWEST, none⟩ DATE_NEWEST
      [elemResolved, elemUnresolved] (by decide) (by decide)⟩

/-! ## Claim C2 -/

/-- Claim C2 (code bug): sorting a container holding a resolved thread
(timestamp 1000) followed by an unresolved thread (timestamp 2000) with
mode `unresolved-last` places the UNRESOLVED thread first — the comparator
returns -1 for an unresolved element instead of 1, inverting the mode's
named meaning — and the result coincides with `resolved-last` on the same
input, so the two modes produce identical orders instead of swapped
partitions. -/
theorem C2_unresolvedLast_puts_unresolved_first :
    (applySorting ⟨DATE_NEWEST, none⟩ (some [elemResolved, elemUnresolved])
        UNRESOLVED_LAST).container = some [elemUnresolved, elemResolved] ∧
      (applySorting ⟨DATE_NEWEST, none⟩ (some [elemResolved, elemUnresolved])
          RESOLVED_LAST).container = some [elemUnresolved, elemResolved] := by
  exact ⟨rfl, rfl⟩

/-! ## Claim C1 -/

/-- Claim C1 counterexample: starting from NewestFirst, one application of
`toggleSort` yields ResolvedLast (leaving the alleged two-mode cycle) and a
second application yields UnresolvedLast, not NewestFirst. -/
theorem C1_counterexample :
    (toggleSort ⟨DATE_NEWEST, none⟩ none).state.currentSort = RESOLVED_LAST ∧
      (toggleSort (toggleSort ⟨DATE_NEWEST, none⟩ none).state none).state.currentSort =
        UNRESOLVED_LAST ∧
      UNRESOLVED_LAST ≠ DATE_NEWEST :=
  ⟨rfl, rfl, by decide⟩

/-- Claim C1 (amended): `toggleSort()` advances cyclically through all four
sort modes in the declaration order of `SORT_OPTIONS` — from the mode at
index i it moves to index (i+1) mod 4 — so it does select ResolvedLast and
UnresolvedLast and returns to the starting mode only after four
applications, not two. -/
theorem C1_toggle_four_cycle (st : EngineState) (container : Option (List CommentElem))
    (i : Fin 4) (h : st.currentSort = sortOptionValues.getD i.val "") :
    (toggleSort st container).state.currentSort =
      sortOptionValues.getD ((i.val + 1) % 4) "" := by
  have hs : (toggleSort st container).state =
      ⟨toggleSortNext st.currentSort, some (toggleSortNext st.currentSort)⟩ :=
    applySorting_state st container _
  rw [hs]
  fin_cases i <;> rw [h] <;> rfl

/-- Witness for C1's amended theorem at NewestFirst (index 1). -/
theorem C1_witness :
    (⟨DATE_NEWEST, none⟩ : EngineState).currentSort =
        sortOptionValues.getD (1 : Fin 4).val "" ∧
      (toggleSort ⟨DATE_NEWEST, none⟩ none).state.currentSort =
        sortOptionValues.getD (((1 : Fin 4).val + 1) % 4) "" :=
  ⟨by decide, C1_toggle_four_cycle ⟨DATE_NEWEST, none⟩ none 1 (by decide)⟩

/-! ## Claim C10 -/

/-- Claim C10 (confirmed): `applySorting(m)` unconditionally sets the
engine state's current sort to m and initiates best-effort persistence of m
before examining the DOM; in the safe no-op case (missing comment container
or zero children) the children are untouched, yet the mode and the
persistence request change to m and a subsequent getStatus reports m. -/
theorem C10_mode_always_set (st : EngineState) (container : Option (List CommentElem))
    (sortOption : String) (tc rc : Nat) :
    (applySorting st container sortOption).state = ⟨sortOption, some sortOption⟩ ∧
      ((container = none ∨ container = some []) →
        (applySorting st container sortOption).container = container) ∧
      (getStatusResponse (applySorting st container sortOption).state tc rc).currentSort =
        sortOption := by
  refine ⟨applySorting_state st container sortOption, ?_, ?_⟩
  · rintro (rfl | rfl) <;> rfl
  · rw [applySorting_state st container sortOption]
    rfl

/-- Witness for C10 in the missing-container no-op case. -/
theorem C10_witness :
    ((none : Option (List CommentElem)) = none ∨
        (none : Option (List CommentElem)) = some []) ∧
      (applySorting ⟨DATE_NEWEST, none⟩ none DATE_OLDEST).container = none :=
  ⟨Or.inl rfl,
    (C10_mode_always_set ⟨DATE_NEWEST, none⟩ none DATE_OLDEST 0 0).2.1 (Or.inl rfl)⟩

/-! ## Claim C4 -/

/-- Claim C4 counterexample: a batch with one mutation targeting the
injected subtree and one targeting the host tree is not exclusively inside
the injected subtrees, yet the observer callback returns before scheduling
— the claimed "if and only if" fails on mixed batches. -/
theorem C4_counterexample :
    mutationBatchSchedules [⟨true⟩, ⟨false⟩] = false ∧
      specBatchSchedules [⟨true⟩, ⟨false⟩] = true :=
  ⟨rfl, rfl⟩

/-- Claim C4 (amended): a mutation batch schedules a reconciliation pass iff
NO changed node of the batch lies inside the engine's injected subtrees
(the callback returns as soon as any mutation targets them); in particular
a non-empty batch whose changed nodes all lie inside the injected control
subtree never triggers a reconciliation pass. -/
theorem C4_self_mutation_filter (batch : List MutationRecord) :
    (mutationBatchSchedules batch = true ↔
        ∀ m ∈ batch, m.targetInsideInjected = false) ∧
      (batch ≠ [] → (∀ m ∈ batch, m.targetInsideInjected = true) →
        mutationBatchSchedules batch = false) := by
  constructor
  · simp [mutationBatchSchedules, List.all_eq_true]
  · intro hne hall
    cases batch with
    | nil => exact absurd rfl hne
    | cons m t =>
      have hm := hall m (List.mem_cons_self m t)
      simp [mutationBatchSchedules, hm]

/-- Witness for C4's amended theorem: a singleton all-inside batch does not
schedule. -/
theorem C4_witness :
    ([(⟨true⟩ : MutationRecord)] ≠ []) ∧
      mutationBatchSchedules [(⟨true⟩ : MutationRecord)] = false :=
  ⟨by decide, (C4_self_mutation_filter [⟨true⟩]).2 (by decide) (by decide)⟩

/-! ## Claim C6 -/

/-- Claim C6 (confirmed): whenever the URL path contains `/files`,
`/commits` or `/checks`, `isConversationTab()` returns false regardless of
every other signal (URL fragment, container visibility and geometry,
tab-navigation state). -/
theorem C6_path_short_circuit (p : PageState)
    (h : jsIncludes p.pathname "/files" = true ∨
      jsIncludes p.pathname "/commits" = true ∨
      jsIncludes p.pathname "/checks" = true) :
    isConversationTab p = false := by
  unfold isConversationTab
  rcases h with h | h | h <;> simp [h]

/-- Witness for C6 at path `/org/repo/pull/5/files` with every other signal
pointing at the conversation tab. -/
theorem C6_witness :
    (jsIncludes exFilesPage.pathname "/files" = true ∨
        jsIncludes exFilesPage.pathname "/commits" = true ∨
        jsIncludes exFilesPage.pathname "/checks" = true) ∧
      isConversationTab exFilesPage = false :=
  ⟨Or.inl (by decide), C6_path_short_circuit exFilesPage (Or.inl (by decide))⟩

/-! ## Claim C7 -/

/-- Claim C7 (confirmed): the classifier reports a thread unresolved iff it
contains a descendant `details` element flagged `data-resolved="false"`;
a thread containing no such flag is classified resolved
(`isCommentResolved` returns true) — absence of the flag is always treated
as resolution and the polarity is never inverted. -/
theorem C7_closed_world (e : CommentElem) :
    (isCommentResolved e = false ↔
        ∃ s ∈ e.descendants, s.tag = "details" ∧ s.dataResolved = some "false") ∧
      ((∀ s ∈ e.descendants, ¬(s.tag = "details" ∧ s.dataResolved = some "false")) →
        isCommentResolved e = true) := by
  have hiff : (isCommentResolved e = false ↔
      ∃ s ∈ e.descendants, s.tag = "details" ∧ s.dataResolved = some "false") := by
    simp [isCommentResolved, List.any_eq_true]
  refine ⟨hiff, fun h => ?_⟩
  by_contra hfalse
  have : isCommentResolved e = false := by
    cases hr : isCommentResolved e with
    | true => exact absurd hr hfalse
    | false => rfl
  obtain ⟨s, hs, htag, hres⟩ := hiff.mp this
  exact h s hs ⟨htag, hres⟩

/-- Witness for C7 at a thread with no unresolved flag. -/
theorem C7_witness :
    (∀ s ∈ elemResolved.descendants,
        ¬(s.tag = "details" ∧ s.dataResolved = some "false")) ∧
      isCommentResolved elemResolved = true :=
  ⟨by decide, (C7_closed_world elemResolved).2 (by decide)⟩

/-! ## Claim C8 -/

/-- Claim C8 counterexample: a 70-character comment body yields a snippet of
63 characters (the first 60 plus the three-character ellipsis), exceeding
the claimed 60-character bound. -/
theorem C8_counterexample :
    (getUnresolvedConversations [⟨"", none, some (List.replicate 70 'a')⟩]).map
        (fun e => e.snippet.length) = [63] ∧ ¬(63 ≤ 60) :=
  ⟨rfl, by decide⟩

theorem mapWithIndex_mem {f : Nat → DetailsElem → UnresolvedEntry} :
    ∀ {i : Nat} {l : List DetailsElem} {e : UnresolvedEntry},
      e ∈ mapWithIndex f i l → ∃ j a, a ∈ l ∧ e = f j a := by
  intro i l
  induction l generalizing i with
  | nil => intro e h; exact absurd h (List.not_mem_nil e)
  | cons a as ih =>
    intro e h
    rcases List.mem_cons.mp h with h | h
    · exact ⟨i, a, List.mem_cons_self a as, h⟩
    · obtain ⟨j, b, hb, he⟩ := ih h
      exact ⟨j, b, List.mem_cons_of_mem a hb, he⟩

theorem truncate_length_le (t : List Char) :
    (if t.length > 60 then t.take 60 ++ ['.', '.', '.'] else t).length ≤ 63 := by
  by_cases h : t.length > 60
  · simp [h, List.length_take]
  · simp [h]
    omega

theorem mkSnippet_length_le (bodyText : Option (List Char)) :
    (mkSnippet bodyText).length ≤ 63 :=
  truncate_length_le _

/-- Claim C8 (amended): every UnresolvedEntry produced by the unresolved
tracker has a snippet of at most 63 characters — a body whose normalized
text exceeds 60 characters is truncated to its first 60 characters followed
by a three-character ellipsis. -/
theorem C8_snippet_bounded (els : List DetailsElem) (e : UnresolvedEntry)
    (h : e ∈ getUnresolvedConversations els) : e.snippet.length ≤ 63 := by
  obtain ⟨j, a, _, he⟩ := mapWithIndex_mem h
  subst he
  exact mkSnippet_length_le a.bodyText

/-- Witness for C8's amended theorem at the 70-character body. -/
theorem C8_witness :
    ((getUnresolvedConversations [⟨"", none, some (List.replicate 70 'a')⟩]).getD 0
        ⟨"", [], []⟩ ∈
        getUnresolvedConversations [⟨"", none, some (List.replicate 70 'a')⟩]) ∧
      ((getUnresolvedConversations [⟨"", none, some (List.replicate 70 'a')⟩]).getD 0
          ⟨"", [], []⟩).snippet.length ≤ 63 :=
  ⟨by decide,
    C8_snippet_bounded [⟨"", none, some (List.replicate 70 'a')⟩]
      ((getUnresolvedConversations [⟨"", none, some (List.replicate 70 'a')⟩]).getD 0
        ⟨"", [], []⟩) (by decide)⟩

/-! ## Claim C9 -/

/-- Claim C9 (confirmed): comment-data extraction is total — it returns
null exactly for a null/undefined element and otherwise always a complete
record; a malformed datetime yields an Invalid-Date value rather than a
propagated exception, and a thrown internal fault degrades (logged) to the
safe default record (synthetic timestamp `now + index`, `resolved = false`),
so processing continues for the remaining elements. -/
theorem C9_extraction_total (parse : String → Option Int) (now index : Int)
    (el? : Option RawElem) :
    (extractCommentData parse now index el? = none ↔ el? = none) ∧
      (∀ (el : RawElem) (msg : String), el? = some el → el.queryTime = .thrown msg →
        extractCommentData parse now index el? =
          some ⟨.valid (now + index), false, false⟩) := by
  constructor
  · cases el? with
    | none => simp [extractCommentData]
    | some el =>
      cases hq : el.queryTime with
      | thrown m => simp [extractCommentData, hq]
      | ok t => simp [extractCommentData, hq]
  · rintro el msg rfl hq
    simp [extractCommentData, hq]

/-- Witness for C9 at an element whose time query throws. -/
theorem C9_witness :
    ((some ⟨.thrown "boom", .ok true⟩ : Option RawElem) =
        some ⟨.thrown "boom", .ok true⟩) ∧
      (⟨.thrown "boom", .ok true⟩ : RawElem).queryTime = .thrown "boom" ∧
      extractCommentData (fun _ => none) 100 3 (some ⟨.thrown "boom", .ok true⟩) =
        some ⟨.valid (100 + 3), false, false⟩ :=
  ⟨rfl, rfl,
    (C9_extraction_total (fun _ => none) 100 3 (some ⟨.thrown "boom", .ok true⟩)).2
      ⟨.thrown "boom", .ok true⟩ "boom" rfl rfl⟩

/-! ## Claim C3: list-level helper lemmas -/

theorem find?_append_of_none {α : Type} {p : α → Bool} {pre : List α}
    (h : ∀ n ∈ pre, p n = false) (l : List α) :
    List.find? p (pre ++ l) = List.find? p l := by
  rw [List.find?_append]
  have hn : List.find? p pre = none := by
    rw [List.find?_eq_none]
    intro x hx
    simp [h x hx]
  rw [hn]
  rfl

theorem nextSiblingIn_append {pre : List WNode} {t : Nat}
    (h : ∀ n ∈ pre, n.nid ≠ t) (mb : WNode) (hmb : mb.nid = t) (post : List WNode) :
    nextSiblingIn (pre ++ mb :: post) t = post.head? := by
  induction pre with
  | nil => simp [nextSiblingIn, hmb]
  | cons x xs ih =>
    have hx : (x.nid == t) = false := by
      simp [h x (List.mem_cons_self x xs)]
    simp only [List.cons_append, nextSiblingIn, hx, Bool.false_eq_true, if_false]
    exact ih fun n hn => h n (List.mem_cons_of_mem x hn)

theorem filter_ne_of_forall {l : List WNode} {t : Nat} (h : ∀ n ∈ l, n.nid ≠ t) :
    l.filter (fun n => n.nid != t) = l := by
  induction l with
  | nil => rfl
  | cons x xs ih =>
    have hx : (x.nid != t) = true := by simp [h x (List.mem_cons_self x xs)]
    simp only [List.filter_cons, hx, if_true]
    rw [ih fun n hn => h n (List.mem_cons_of_mem x hn)]

theorem filter_remove_unique {pre post : List WNode} {mb : WNode} {t : Nat}
    (hmb : mb.nid = t) (hpre : ∀ n ∈ pre, n.nid ≠ t) (hpost : ∀ n ∈ post, n.nid ≠ t) :
    (pre ++ mb :: post).filter (fun n => n.nid != t) = pre ++ post := by
  rw [List.filter_append, filter_ne_of_forall hpre, List.filter_cons]
  have hmbf : (mb.nid != t) = false := by simp [hmb]
  simp only [hmbf, Bool.false_eq_true, if_false]
  rw [filter_ne_of_forall hpost]

theorem insertAfterInList_not_mem {l : List WNode} {anchor : Nat} {nn : WNode}
    (h : ∀ n ∈ l, n.nid ≠ anchor) : insertAfterInList anchor nn l = l := by
  induction l with
  | nil => rfl
  | cons x xs ih =>
    have hx : (x.nid == anchor) = false := by simp [h x (List.mem_cons_self x xs)]
    simp only [insertAfterInList, hx, Bool.false_eq_true, if_false]
    rw [ih fun n hn => h n (List.mem_cons_of_mem x hn)]

theorem insertBeforeInList_found {pre rest : List WNode} {s : WNode} {ref : Nat}
    {nn : WNode} (hpre : ∀ n ∈ pre, n.nid ≠ ref) (hs : s.nid = ref) :
    insertBeforeInList ref nn (pre ++ s :: rest) = pre ++ nn :: s :: rest := by
  induction pre with
  | nil => simp [insertBeforeInList, hs]
  | cons x xs ih =>
    have hx : (x.nid == ref) = false := by simp [hpre x (List.mem_cons_self x xs)]
    simp only [List.cons_append, insertBeforeInList, hx, Bool.false_eq_true, if_false,
      List.append_eq]
    rw [ih fun n hn => hpre n (List.mem_cons_of_mem x hn)]

theorem map_if_nid_eq {l : List WNode} {t : Nat} {f : WNode → WNode}
    (h : ∀ n ∈ l, n.nid ≠ t) :
    (l.map fun n => if n.nid == t then f n else n) = l := by
  induction l with
  | nil => rfl
  | cons x xs ih =>
    have hx : (x.nid == t) = false := by simp [h x (List.mem_cons_self x xs)]
    simp only [List.map_cons, hx, Bool.false_eq_true, if_false]
    rw [ih fun n hn => h n (List.mem_cons_of_mem x hn)]

theorem mapNodeInList_not_mem {l : List WNode} {t : Nat} {f : WNode → WNode}
    (h : ∀ n ∈ l, n.nid ≠ t) : mapNodeInList t f l = l :=
  map_if_nid_eq h

theorem findSome?_3 {β : Type} (f : WContainer → Option β) (a b c : WContainer) :
    List.findSome? f [a, b, c] =
      match f a with
      | some r => some r
      | none =>
        match f b with
        | some r => some r
        | none =>
          match f c with
          | some r => some r
          | none => none := by
  rw [List.findSome?_cons]
  cases f a with
  | some r => rfl
  | none =>
    rw [List.findSome?_cons]
    cases f b with
    | some r => rfl
    | none =>
      rw [List.findSome?_cons]
      cases f c with
      | some r => rfl
      | none => rfl

theorem findNode_3 (q : WNode → Bool) (a b c : WContainer) :
    findNode q ⟨[a, b, c]⟩ =
      match List.find? q a.children with
      | some n => some (a, n)
      | none =>
        match List.find? q b.children with
        | some n => some (b, n)
        | none =>
          match List.find? q c.children with
          | some n => some (c, n)
          | none => none := by
  unfold findNode
  rw [findSome?_3]
  cases List.find? q a.children with
  | some n => rfl
  | none =>
    cases List.find? q b.children with
    | some n => rfl
    | none =>
      cases List.find? q c.children with
      | some n => rfl
      | none => rfl

theorem removeNode_3 (t : Nat) (a b c : WContainer) :
    removeNode t ⟨[a, b, c]⟩ =
      ⟨[{ a with children := a.children.filter fun n => n.nid != t },
        { b with children := b.children.filter fun n => n.nid != t },
        { c with children := c.children.filter fun n => n.nid != t }]⟩ := rfl

theorem insertAfterNode_3 (anchor : Nat) (nn : WNode) (a b c : WContainer) :
    insertAfterNode anchor nn ⟨[a, b, c]⟩ =
      ⟨[{ a with children := insertAfterInList anchor nn a.children },
        { b with children := insertAfterInList anchor nn b.children },
        { c with children := insertAfterInList anchor nn c.children }]⟩ := rfl

theorem mapNode_3 (t : Nat) (f : WNode → WNode) (a b c : WContainer) :
    mapNode t f ⟨[a, b, c]⟩ =
      ⟨[{ a with children := mapNodeInList t f a.children },
        { b with children := mapNodeInList t f b.children },
        { c with children := mapNodeInList t f c.children }]⟩ := rfl

theorem findNode_mkDoc_mergeBox {pid : String} {pre post : List WNode} {mb sc : WNode}
    (hmb1 : mb.isMergeBox = true)
    (hpre : ∀ n ∈ pre, n.isMergeBox = false) :
    findNode (fun n => n.isMergeBox) (mkDoc pid pre mb post sc) =
      some (⟨1, pid, false, false, pre ++ mb :: post⟩, mb) := by
  unfold mkDoc
  rw [findNode_3]
  dsimp only
  rw [List.find?_nil, find?_append_of_none hpre, List.find?_cons_of_pos _ hmb1]

theorem findNode_mkDoc_sortControls {pid : String} {pre post : List WNode} {mb sc : WNode}
    (hmb3 : mb.isSortControls = false) (hsc1 : sc.isSortControls = true)
    (hpre : ∀ n ∈ pre, n.isSortControls = false)
    (hpost : ∀ n ∈ post, n.isSortControls = false) :
    findNode (fun n => n.isSortControls) (mkDoc pid pre mb post sc) =
      some (⟨2, "", false, false, [sc]⟩, sc) := by
  have hnone : List.find? (fun n : WNode => n.isSortControls) (pre ++ mb :: post) = none := by
    rw [find?_append_of_none hpre, List.find?_cons_of_neg _ (by simp [hmb3])]
    exact List.find?_eq_none.mpr fun x hx => by simp [hpost x hx]
  unfold mkDoc
  rw [findNode_3]
  dsimp only
  rw [List.find?_nil, hnone, List.find?_cons_of_pos _ hsc1]

theorem insertAfterInList_nil (anchor : Nat) (nn : WNode) :
    insertAfterInList anchor nn [] = [] := rfl

theorem mapNodeInList_nil (t : Nat) (f : WNode → WNode) :
    mapNodeInList t f [] = [] := rfl

theorem insertAfterInList_head {x : WNode} {anchor : Nat} (nn : WNode) (xs : List WNode)
    (h : x.nid = anchor) :
    insertAfterInList anchor nn (x :: xs) = x :: nn :: xs := by
  simp [insertAfterInList, h]

theorem mapNodeInList_parent {pre rest : List WNode} {mb s : WNode} {t : Nat}
    {f : WNode → WNode}
    (hpre : ∀ n ∈ pre, n.nid ≠ t) (hmb : mb.nid ≠ t) (hs : s.nid = t)
    (hrest : ∀ n ∈ rest, n.nid ≠ t) :
    mapNodeInList t f (pre ++ mb :: s :: rest) = pre ++ mb :: f s :: rest := by
  unfold mapNodeInList
  rw [List.map_append, map_if_nid_eq hpre, List.map_cons, List.map_cons]
  have hmbf : (mb.nid == t) = false := by simp [hmb]
  have hsf : (s.nid == t) = true := by simp [hs]
  rw [hmbf, hsf]
  simp only [Bool.false_eq_true, if_false, if_true]
  rw [map_if_nid_eq hrest]

/-- Characterization of `moveMergeStatusToTop` on the three-container page
fragment: the widget's dataset records the parent id and the (possibly
assigned) sibling id, the id-less sibling is renamed, and the widget is
re-attached directly after the sort controls. -/
theorem move_mkDoc (pid freshId : String) (pre post : List WNode) (mb sc : WNode)
    (hmb1 : mb.isMergeBox = true) (hmb2 : mb.movedToTop = false)
    (hmb3 : mb.isSortControls = false) (hsc1 : sc.isSortControls = true)
    (hplain : ∀ n ∈ pre ++ post,
      n.isMergeBox = false ∧ n.isSortControls = false ∧ n.movedToTop = false)
    (hnidMb : ∀ n ∈ pre ++ post, n.nid ≠ mb.nid)
    (hnidSc : ∀ n ∈ pre ++ post, n.nid ≠ sc.nid)
    (hscMb : sc.nid ≠ mb.nid)
    (hsibU : ∀ s, post.head? = some s →
      (∀ n ∈ pre, n.nid ≠ s.nid) ∧ (mb.nid ≠ s.nid) ∧ (∀ n ∈ post.tail, n.nid ≠ s.nid)) :
    moveMergeStatusToTop true freshId (mkDoc pid pre mb post sc) =
      ⟨[⟨0, "", false, true, []⟩,
        ⟨1, pid, false, false, pre ++ renameHead freshId post⟩,
        ⟨2, "", false, false, [sc, movedMergeBox pid freshId mb post]⟩]⟩ := by
  have hpreMB : ∀ n ∈ pre, n.isMergeBox = false :=
    fun n hn => (hplain n (List.mem_append_left _ hn)).1
  have hpreSC : ∀ n ∈ pre, n.isSortControls = false :=
    fun n hn => (hplain n (List.mem_append_left _ hn)).2.1
  have hpostSC : ∀ n ∈ post, n.isSortControls = false :=
    fun n hn => (hplain n (List.mem_append_right _ hn)).2.1
  have hpreNid : ∀ n ∈ pre, n.nid ≠ mb.nid :=
    fun n hn => hnidMb n (List.mem_append_left _ hn)
  have hpostNid : ∀ n ∈ post, n.nid ≠ mb.nid :=
    fun n hn => hnidMb n (List.mem_append_right _ hn)
  have hpreSc : ∀ n ∈ pre, n.nid ≠ sc.nid :=
    fun n hn => hnidSc n (List.mem_append_left _ hn)
  have hscFilter : ([sc].filter fun n => n.nid != mb.nid) = [sc] :=
    filter_ne_of_forall (by
      intro n hn
      rw [List.mem_singleton] at hn
      subst hn
      exact hscMb)
  unfold moveMergeStatusToTop
  rw [findNode_mkDoc_mergeBox hmb1 hpreMB,
    findNode_mkDoc_sortControls hmb3 hsc1 hpreSC hpostSC]
  simp only [Bool.not_true, Bool.false_eq_true, if_false, hmb2]
  rw [nextSiblingIn_append hpreNid mb rfl post]
  cases post with
  | nil =>
    simp only [List.head?_nil, Option.map_none']
    unfold mkDoc
    rw [removeNode_3]
    dsimp only
    rw [List.filter_nil, filter_remove_unique rfl hpreNid (by intro n hn; cases hn),
      hscFilter, List.append_nil]
    rw [insertAfterNode_3]
    dsimp only
    rw [insertAfterInList_nil, insertAfterInList_not_mem hpreSc,
      insertAfterInList_head _ _ rfl]
    simp [renameHead, movedMergeBox]
  | cons s rest =>
    obtain ⟨hsPre, hsMb, hsRest⟩ := hsibU s rfl
    simp only [List.tail_cons] at hsRest
    have hsNidSc : sc.nid ≠ s.nid :=
      fun h => hnidSc s (List.mem_append_right _ (List.mem_cons_self s rest)) h.symm
    have hsMbNid : s.nid ≠ mb.nid :=
      hpostNid s (List.mem_cons_self s rest)
    have hrestMb : ∀ n ∈ rest, n.nid ≠ mb.nid :=
      fun n hn => hpostNid n (List.mem_cons_of_mem s hn)
    have hrestSc : ∀ n ∈ rest, n.nid ≠ sc.nid :=
      fun n hn => hnidSc n (List.mem_append_right _ (List.mem_cons_of_mem s hn))
    simp only [List.head?_cons, Option.map_some']
    have hfilterP : ∀ s2 : WNode,
        s2.nid = s.nid →
        ((pre ++ mb :: s2 :: rest).filter fun n => n.nid != mb.nid) =
          pre ++ s2 :: rest := by
      intro s2 hs2
      refine filter_remove_unique rfl hpreNid ?_
      intro n hn
      rcases List.mem_cons.mp hn with h | h
      · subst h; rw [hs2]; exact hsMbNid
      · exact hrestMb n h
    have hinsP : ∀ (nn s2 : WNode), s2.nid = s.nid →
        insertAfterInList sc.nid nn (pre ++ s2 :: rest) = pre ++ s2 :: rest := by
      intro nn s2 hs2
      refine insertAfterInList_not_mem ?_
      intro n hn
      rcases List.mem_append.mp hn with h | h
      · exact hpreSc n h
      · rcases List.mem_cons.mp h with h | h
        · subst h; rw [hs2]; exact fun hx => hsNidSc hx.symm
        · exact hrestSc n h
    cases hdom : s.domId == "" with
    | true =>
      simp only [hdom, if_true]
      unfold mkDoc
      rw [mapNode_3]
      dsimp only
      rw [mapNodeInList_nil,
        mapNodeInList_parent hsPre hsMb rfl hsRest,
        mapNodeInList_not_mem (by
          intro n hn
          rw [List.mem_singleton] at hn
          subst hn
          exact hsNidSc)]
      rw [removeNode_3]
      dsimp only
      rw [List.filter_nil, hfilterP { s with domId := freshId } rfl, hscFilter]
      rw [insertAfterNode_3]
      dsimp only
      rw [insertAfterInList_nil, hinsP _ { s with domId := freshId } rfl,
        insertAfterInList_head _ _ rfl]
      have hdomEq : s.domId = "" := by simpa using hdom
      simp [renameHead, movedMergeBox, hdom, hdomEq]
    | false =>
      simp only [hdom, Bool.false_eq_true, if_false]
      unfold mkDoc
      rw [removeNode_3]
      dsimp only
      rw [List.filter_nil, hfilterP s rfl, hscFilter]
      rw [insertAfterNode_3]
      dsimp only
      rw [insertAfterInList_nil, hinsP _ s rfl, insertAfterInList_head _ _ rfl]
      have hdomNe : ¬s.domId = "" := by simpa using hdom
      simp [renameHead, movedMergeBox, hdom, hdomNe]

theorem appendChildInContainer_3 (target : Nat) (nn : WNode) (a b c : WContainer) :
    appendChildInContainer target nn ⟨[a, b, c]⟩ =
      ⟨[if a.cid == target then { a with children := a.children ++ [nn] } else a,
        if b.cid == target then { b with children := b.children ++ [nn] } else b,
        if c.cid == target then { c with children := c.children ++ [nn] } else c]⟩ := rfl

theorem insertBeforeInContainer_3 (target ref : Nat) (nn : WNode) (a b c : WContainer) :
    insertBeforeInContainer target ref nn ⟨[a, b, c]⟩ =
      ⟨[if a.cid == target then
          { a with children := insertBeforeInList ref nn a.children } else a,
        if b.cid == target then
          { b with children := insertBeforeInList ref nn b.children } else b,
        if c.cid == target then
          { c with children := insertBeforeInList ref nn c.children } else c]⟩ := rfl

/-- Characterization of `restoreMergeStatusPosition` on the page fragment
left behind by the move, when the recorded parent id is non-empty and the
recorded ids resolve uniquely: the widget is re-inserted under its original
parent directly before its original next sibling (or appended when it was
the last child) and its dataset is cleared. -/
theorem restore_moved_doc (pid freshId : String) (pre post : List WNode) (mb sc : WNode)
    (hsc2 : sc.movedToTop = false) (hpid : pid ≠ "") (hscMb : sc.nid ≠ mb.nid)
    (hplain : ∀ n ∈ pre ++ post,
      n.isMergeBox = false ∧ n.isSortControls = false ∧ n.movedToTop = false)
    (hnidMb : ∀ n ∈ pre ++ post, n.nid ≠ mb.nid)
    (hsib2 : ∀ s, post.head? = some s →
      ((if s.domId == "" then freshId else s.domId) ≠ "" ∧
        (∀ n ∈ pre, n.domId ≠ (if s.domId == "" then freshId else s.domId)) ∧
        (∀ n ∈ pre, n.nid ≠ s.nid))) :
    restoreMergeStatusPosition
        ⟨[⟨0, "", false, true, []⟩,
          ⟨1, pid, false, false, pre ++ renameHead freshId post⟩,
          ⟨2, "", false, false, [sc, movedMergeBox pid freshId mb post]⟩]⟩ =
      some
        ⟨[⟨0, "", false, true, []⟩,
          ⟨1, pid, false, false, pre ++ cleanedMergeBox mb :: renameHead freshId post⟩,
          ⟨2, "", false, false, [sc]⟩]⟩ := by
  have hpreMoved : ∀ n ∈ pre, n.movedToTop = false :=
    fun n hn => (hplain n (List.mem_append_left _ hn)).2.2
  have hpreNid : ∀ n ∈ pre, n.nid ≠ mb.nid :=
    fun n hn => hnidMb n (List.mem_append_left _ hn)
  have hscT : (sc.movedToTop = true) → False := by simp [hsc2]
  have hrenMoved : ∀ n ∈ pre ++ renameHead freshId post, n.movedToTop = false := by
    intro n hn
    rcases List.mem_append.mp hn with h | h
    · exact hpreMoved n h
    · cases post with
      | nil => cases h
      | cons s rest =>
        unfold renameHead at h
        rcases List.mem_cons.mp h with h | h
        · have hs : (if s.domId == "" then { s with domId := freshId } else s).movedToTop
              = s.movedToTop := by split <;> rfl
          rw [h, hs]
          exact (hplain s (List.mem_append_right _ (List.mem_cons_self s rest))).2.2
        · exact (hplain n (List.mem_append_right _ (List.mem_cons_of_mem s h))).2.2
  have hrenNid : ∀ n ∈ pre ++ renameHead freshId post, n.nid ≠ mb.nid := by
    intro n hn
    rcases List.mem_append.mp hn with h | h
    · exact hpreNid n h
    · cases post with
      | nil => cases h
      | cons s rest =>
        unfold renameHead at h
        rcases List.mem_cons.mp h with h | h
        · have hs : (if s.domId == "" then { s with domId := freshId } else s).nid
              = s.nid := by split <;> rfl
          rw [h, hs]
          exact hnidMb s (List.mem_append_right _ (List.mem_cons_self s rest))
        · exact hnidMb n (List.mem_append_right _ (List.mem_cons_of_mem s h))
  have hfind : findNode (fun n => n.movedToTop)
      ⟨[⟨0, "", false, true, []⟩,
        ⟨1, pid, false, false, pre ++ renameHead freshId post⟩,
        ⟨2, "", false, false, [sc, movedMergeBox pid freshId mb post]⟩]⟩ =
      some (⟨2, "", false, false, [sc, movedMergeBox pid freshId mb post]⟩,
        movedMergeBox pid freshId mb post) := by
    rw [findNode_3]
    dsimp only
    rw [List.find?_nil,
      List.find?_eq_none.mpr (fun x hx => by simp [hrenMoved x hx]),
      List.find?_cons_of_neg _ (by simp [hsc2]),
      List.find?_cons_of_pos _ rfl]
  have hgetP : getContainerById pid
      ⟨[⟨0, "", false, true, []⟩,
        ⟨1, pid, false, false, pre ++ renameHead freshId post⟩,
        ⟨2, "", false, false, [sc, movedMergeBox pid freshId mb post]⟩]⟩ =
      some ⟨1, pid, false, false, pre ++ renameHead freshId post⟩ := by
    unfold getContainerById
    have h0 : (pid == "") = false := by simp [hpid]
    simp only [h0, Bool.false_eq_true, if_false]
    rw [List.find?_cons_of_neg _ (by simp; exact fun h => hpid h.symm),
      List.find?_cons_of_pos _ (by simp)]
  have hscFilter2 : (([sc, movedMergeBox pid freshId mb post]).filter
      fun n => n.nid != mb.nid) = [sc] := by
    have h1 : (sc.nid != mb.nid) = true := by simp [hscMb]
    have h2 : ((movedMergeBox pid freshId mb post).nid != mb.nid) = false := by
      simp [movedMergeBox]
    simp [List.filter_cons, h1, h2]
  have hfilterPre : (pre ++ renameHead freshId post).filter
      (fun n => n.nid != mb.nid) = pre ++ renameHead freshId post :=
    filter_ne_of_forall hrenNid
  unfold restoreMergeStatusPosition
  rw [hfind]
  dsimp only
  rw [show (movedMergeBox pid freshId mb post).originalParentId = some pid from rfl]
  dsimp only
  rw [hgetP]
  cases post with
  | nil =>
    rw [show (movedMergeBox pid freshId mb []).originalNextSiblingId = none from rfl]
    dsimp only
    rw [show (movedMergeBox pid freshId mb []).nid = mb.nid from rfl]
    rw [removeNode_3]
    dsimp only
    rw [List.filter_nil, hfilterPre, hscFilter2]
    rw [appendChildInContainer_3]
    dsimp only
    simp [cleanedMergeBox, movedMergeBox, renameHead]
  | cons s rest =>
    obtain ⟨hrid, hpreDom, hpreSnid⟩ := hsib2 s rfl
    set rid := (if s.domId == "" then freshId else s.domId) with hridDef
    set s2 := (if s.domId == "" then { s with domId := freshId } else s) with hs2
    have hs2nid : s2.nid = s.nid := by rw [hs2]; split <;> rfl
    have hs2dom : s2.domId = rid := by rw [hs2, hridDef]; split <;> rfl
    have hren : renameHead freshId (s :: rest) = s2 :: rest := by
      rw [hs2]
      rfl
    have h0 : (rid == "") = false := by simp [hrid]
    rw [show (movedMergeBox pid freshId mb (s :: rest)).originalNextSiblingId =
      some rid from by rw [hridDef]; rfl]
    dsimp only
    have hgetS : getNodeById rid
        ⟨[⟨0, "", false, true, []⟩,
          ⟨1, pid, false, false, pre ++ renameHead freshId (s :: rest)⟩,
          ⟨2, "", false, false, [sc, movedMergeBox pid freshId mb (s :: rest)]⟩]⟩ =
        some s2 := by
      unfold getNodeById
      simp only [h0, Bool.false_eq_true, if_false]
      rw [findNode_3]
      dsimp only
      rw [List.find?_nil]
      have hfindS : List.find? (fun n => n.domId == rid)
          (pre ++ renameHead freshId (s :: rest)) = some s2 := by
        rw [hren, find?_append_of_none (fun n hn => by simp [hpreDom n hn])]
        exact List.find?_cons_of_pos _ (by simp [hs2dom])
      rw [hfindS]
      rfl
    rw [hgetS]
    dsimp only
    rw [show (movedMergeBox pid freshId mb (s :: rest)).nid = mb.nid from rfl]
    rw [removeNode_3]
    dsimp only
    rw [List.filter_nil, hfilterPre, hscFilter2]
    have hanyS : ((pre ++ renameHead freshId (s :: rest)).any fun n =>
        n.nid == s2.nid) = true := by
      refine List.any_eq_true.mpr ⟨s2, ?_, by simp⟩
      rw [hren]
      exact List.mem_append_right _ (List.mem_cons_self _ _)
    rw [show containerChildren 1
        ⟨[⟨0, "", false, true, (List.nil : List WNode)⟩,
          ⟨1, pid, false, false, pre ++ renameHead freshId (s :: rest)⟩,
          ⟨2, "", false, false, [sc]⟩]⟩ = pre ++ renameHead freshId (s :: rest) from rfl]
    rw [hanyS]
    rw [insertBeforeInContainer_3]
    dsimp only
    have hins : ∀ nn : WNode, insertBeforeInList s2.nid nn
        (pre ++ renameHead freshId (s :: rest)) =
        pre ++ nn :: renameHead freshId (s :: rest) := by
      intro nn
      rw [hren]
      refine insertBeforeInList_found ?_ rfl
      intro n hn
      rw [hs2nid]
      exact hpreSnid n hn
    rw [hins]
    simp [cleanedMergeBox, movedMergeBox]

theorem find?_parent_cons (t : Nat) (c : WContainer) (cs : List WContainer)
    (h : (c.children.any fun n => n.nid == t) = true) :
    List.find? (fun k => k.children.any fun n => n.nid == t) (c :: cs) = some c :=
  List.find?_cons_of_pos _ h

theorem find?_parent_cons_neg (t : Nat) (c : WContainer) (cs : List WContainer)
    (h : (c.children.any fun n => n.nid == t) = false) :
    List.find? (fun k => k.children.any fun n => n.nid == t) (c :: cs) =
      List.find? (fun k => k.children.any fun n => n.nid == t) cs :=
  List.find?_cons_of_neg _ (by simp [h])

/-- Claim C3 counterexample: with the widget the last child of an id-less
parent, moveToTop() records `data-original-parent-id=""` — no id is ever
assigned to the parent (all three container ids are still empty after the
move) — and restoreOriginal() falls back to `document.body`: the round trip
ends under the body container (cid 0), not the original parent (cid 1). -/
theorem C3_counterexample :
    parentCidOf 10 (mkDoc "" [] exMergeBox [] exSortControls) = some 1 ∧
      (restoreMergeStatusPosition
          (moveMergeStatusToTop true "m1" (mkDoc "" [] exMergeBox [] exSortControls))).map
        (parentCidOf 10) = some (some 0) ∧
      ((moveMergeStatusToTop true "m1"
          (mkDoc "" [] exMergeBox [] exSortControls)).containers.map fun c => c.domId) =
        ["", "", ""] := by
  decide

/-- Claim C3 (amended): for every starting position of the status widget,
including last child (no next sibling), and provided the original parent
carries a NON-EMPTY id — the manager records the parent only by its
pre-existing id (an empty string when it has none) and never assigns it one
— `moveToTop()` followed by `restoreOriginal()` reinserts the widget under
the same parent identity and immediately before the same next-sibling
identity it had before the move; an identifier is assigned only to the
recorded next sibling when it lacks one. -/
theorem C3_roundtrip (pid freshId : String) (pre post : List WNode) (mb sc : WNode)
    (hmb1 : mb.isMergeBox = true) (hmb2 : mb.movedToTop = false)
    (hmb3 : mb.isSortControls = false) (hsc1 : sc.isSortControls = true)
    (hsc2 : sc.movedToTop = false) (hpid : pid ≠ "") (hscMb : sc.nid ≠ mb.nid)
    (hplain : ∀ n ∈ pre ++ post,
      n.isMergeBox = false ∧ n.isSortControls = false ∧ n.movedToTop = false)
    (hnidMb : ∀ n ∈ pre ++ post, n.nid ≠ mb.nid)
    (hnidSc : ∀ n ∈ pre ++ post, n.nid ≠ sc.nid)
    (hsib : ∀ s, post.head? = some s →
      (∀ n ∈ pre, n.nid ≠ s.nid) ∧ mb.nid ≠ s.nid ∧ (∀ n ∈ post.tail, n.nid ≠ s.nid) ∧
        (if s.domId == "" then freshId else s.domId) ≠ "" ∧
        (∀ n ∈ pre, n.domId ≠ (if s.domId == "" then freshId else s.domId))) :
    ∃ d' : WDoc,
      restoreMergeStatusPosition
          (moveMergeStatusToTop true freshId (mkDoc pid pre mb post sc)) = some d' ∧
        parentCidOf mb.nid d' = parentCidOf mb.nid (mkDoc pid pre mb post sc) ∧
        nextSiblingNidOf mb.nid d' = nextSiblingNidOf mb.nid (mkDoc pid pre mb post sc) := by
  have hpreNid : ∀ n ∈ pre, n.nid ≠ mb.nid :=
    fun n hn => hnidMb n (List.mem_append_left _ hn)
  have hparent_orig : parentCidOf mb.nid (mkDoc pid pre mb post sc) = some 1 := by
    unfold parentCidOf mkDoc
    rw [find?_parent_cons_neg mb.nid ⟨0, "", false, true, []⟩ _ rfl,
      find?_parent_cons mb.nid ⟨1, pid, false, false, pre ++ mb :: post⟩ _
        (List.any_eq_true.mpr
          ⟨mb, List.mem_append_right _ (List.mem_cons_self _ _), by simp⟩)]
    rfl
  have hnext_orig : nextSiblingNidOf mb.nid (mkDoc pid pre mb post sc) =
      post.head?.map fun n => n.nid := by
    unfold nextSiblingNidOf mkDoc
    rw [find?_parent_cons_neg mb.nid ⟨0, "", false, true, []⟩ _ rfl,
      find?_parent_cons mb.nid ⟨1, pid, false, false, pre ++ mb :: post⟩ _
        (List.any_eq_true.mpr
          ⟨mb, List.mem_append_right _ (List.mem_cons_self _ _), by simp⟩)]
    dsimp only
    rw [nextSiblingIn_append hpreNid mb rfl post]
  have hrenHead : (renameHead freshId post).head?.map (fun n => n.nid) =
      post.head?.map fun n => n.nid := by
    cases post with
    | nil => rfl
    | cons s rest =>
      unfold renameHead
      rw [List.head?_cons, List.head?_cons, Option.map_some', Option.map_some']
      have hs : (if s.domId == "" then { s with domId := freshId } else s).nid = s.nid := by
        split <;> rfl
      rw [hs]
  have hparent_res : parentCidOf mb.nid
      ⟨[⟨0, "", false, true, []⟩,
        ⟨1, pid, false, false, pre ++ cleanedMergeBox mb :: renameHead freshId post⟩,
        ⟨2, "", false, false, [sc]⟩]⟩ = some 1 := by
    unfold parentCidOf
    rw [find?_parent_cons_neg mb.nid ⟨0, "", false, true, []⟩ _ rfl,
      find?_parent_cons mb.nid
        ⟨1, pid, false, false, pre ++ cleanedMergeBox mb :: renameHead freshId post⟩ _
        (List.any_eq_true.mpr
          ⟨cleanedMergeBox mb, List.mem_append_right _ (List.mem_cons_self _ _),
            by simp [cleanedMergeBox]⟩)]
    rfl
  have hnext_res : nextSiblingNidOf mb.nid
      ⟨[⟨0, "", false, true, []⟩,
        ⟨1, pid, false, false, pre ++ cleanedMergeBox mb :: renameHead freshId post⟩,
        ⟨2, "", false, false, [sc]⟩]⟩ = post.head?.map fun n => n.nid := by
    unfold nextSiblingNidOf
    rw [find?_parent_cons_neg mb.nid ⟨0, "", false, true, []⟩ _ rfl,
      find?_parent_cons mb.nid
        ⟨1, pid, false, false, pre ++ cleanedMergeBox mb :: renameHead freshId post⟩ _
        (List.any_eq_true.mpr
          ⟨cleanedMergeBox mb, List.mem_append_right _ (List.mem_cons_self _ _),
            by simp [cleanedMergeBox]⟩)]
    dsimp only
    rw [nextSiblingIn_append hpreNid (cleanedMergeBox mb) rfl (renameHead freshId post)]
    exact hrenHead
  rw [move_mkDoc pid freshId pre post mb sc hmb1 hmb2 hmb3 hsc1 hplain hnidMb hnidSc hscMb
    (fun s hs => ⟨(hsib s hs).1, (hsib s hs).2.1, (hsib s hs).2.2.1⟩)]
  refine ⟨_, restore_moved_doc pid freshId pre post mb sc hsc2 hpid hscMb hplain hnidMb
    (fun s hs => ⟨(hsib s hs).2.2.2.1, (hsib s hs).2.2.2.2, (hsib s hs).1⟩), ?_, ?_⟩
  · rw [hparent_res, hparent_orig]
  · rw [hnext_res, hnext_orig]

/-- Witness for C3's amended theorem: widget as last child of a parent with
id "p1"; the round trip restores parent and (absent) next sibling. -/
theorem C3_witness :
    ("p1" ≠ "") ∧
      ∃ d' : WDoc,
        restoreMergeStatusPosition
            (moveMergeStatusToTop true "m1"
              (mkDoc "p1" [] exMergeBox [] exSortControls)) = some d' ∧
          parentCidOf exMergeBox.nid d' =
            parentCidOf exMergeBox.nid (mkDoc "p1" [] exMergeBox [] exSortControls) ∧
          nextSiblingNidOf exMergeBox.nid d' =
            nextSiblingNidOf exMergeBox.nid (mkDoc "p1" [] exMergeBox [] exSortControls) :=
  ⟨by decide,
    C3_roundtrip "p1" "m1" [] [] exMergeBox exSortControls (by decide) (by decide)
      (by decide) (by decide) (by decide) (by decide) (by decide)
      (by intro n hn; cases hn) (by intro n hn; cases hn) (by intro n hn; cases hn)
      (fun s hs => nomatch hs)⟩

end PRSorter

